import Mathlib

/-!
A shallow embedding of the news pipeline implemented in
src/src/LatestNews.tsx: the record data model, the relevance filter,
the cache store, the feed fetcher and parser, the load orchestration
and the date-filtered sorted view, together with theorems checking the
documented contracts against these definitions.
-/

/-- NewsItem mirrors the TypeScript record type.  In the source the
field publishedAtISO always holds an output of
Date.prototype.toISOString, which is an order-preserving injection
from epoch-millisecond instants to strings (string comparison of such
outputs agrees with numeric comparison of the instants for years
0000 to 9999); the embedding therefore carries the instant itself as
the integer field publishedAt. -/
structure NewsItem where
  id : String
  title : String
  url : String
  source : String
  publishedAt : Int
  snippet : String
  deriving DecidableEq, Repr

/-- CACHE_TTL_MS from the source: one hour in milliseconds. -/
def CACHE_TTL_MS : Int := 60 * 60 * 1000

/-- POWER_TERMS: the fixed domain keyword list of the source. -/
def POWER_TERMS : List String :=
  ["power", "electricity", "grid", "demand", "supply", "peak", "renewable",
   "solar", "wind", "coal", "plf", "transmission", "discom", "energy"]

/-- clamp mirrors the snippet truncation helper of the source: the
text is unchanged when its length is at most n, otherwise it is cut
to the first n characters with an ellipsis appended (the slice on
UTF-16 code units is modelled as a take on characters). -/
def clamp (text : String) (n : Nat := 180) : String :=
  if text.length ≤ n then text else String.mk (text.data.take n) ++ "…"

/-- jsToLower models String.prototype.toLowerCase as per-character
simple case mapping; every keyword involved is ASCII. -/
def jsToLower (s : String) : String := String.mk (s.data.map Char.toLower)

/-- jsIncludes models String.prototype.includes: containment of the
needle as a contiguous substring of the haystack. -/
def jsIncludes (hay needle : String) : Bool :=
  decide (List.IsInfix needle.data hay.data)

/-- isRelevant, translated from the source: the lowercased haystack
built from title, snippet and source separated by spaces must contain
india or indian, and at least one entry of POWER_TERMS. -/
def isRelevant (item : NewsItem) : Bool :=
  let hay := jsToLower (item.title ++ " " ++ item.snippet ++ " " ++ item.source)
  (jsIncludes hay "india" || jsIncludes hay "indian") &&
    POWER_TERMS.any (fun t => jsIncludes hay t)

/-- tagEnd consumes characters up to and including the first closing
angle bracket and returns the remainder, or none when no closing
bracket occurs. -/
def tagEnd : List Char → Option (List Char)
  | [] => none
  | c :: rest => if c = '>' then some rest else tagEnd rest

theorem tagEnd_length (l : List Char) :
    ∀ r, tagEnd l = some r → r.length < l.length := by
  induction l with
  | nil => intro r h; exact absurd h (by simp [tagEnd])
  | cons c rest ih =>
    intro r h
    rw [tagEnd] at h
    split at h
    · cases h; simp
    · have hr := ih r h
      simp only [List.length_cons]
      omega

/-- dropTagMatch attempts to match one markup tag after the opening
angle bracket has been consumed: at least one character other than a
closing bracket, then the closing bracket; it returns the remainder
after the match, or none when the expression does not match here. -/
def dropTagMatch : List Char → Option (List Char)
  | [] => none
  | c :: rest => if c = '>' then none else tagEnd rest

theorem dropTagMatch_length (l : List Char) :
    ∀ r, dropTagMatch l = some r → r.length < l.length := by
  cases l with
  | nil => intro r h; exact absurd h (by simp [dropTagMatch])
  | cons c rest =>
    intro r h
    rw [dropTagMatch] at h
    split at h
    · exact absurd h (by simp)
    · have hr := tagEnd_length rest r h
      simp only [List.length_cons]
      omega

/-- stripTagsList models the global regex replacement that deletes
markup tags from the description text: leftmost matches of an opening
bracket, one or more characters other than a closing bracket and a
closing bracket are removed; characters at positions with no match
are kept. -/
def stripTagsList : List Char → List Char
  | [] => []
  | c :: rest =>
    if c = '<' then
      match h : dropTagMatch rest with
      | some r => stripTagsList r
      | none => c :: stripTagsList rest
    else c :: stripTagsList rest
termination_by l => l.length
decreasing_by
  · have := dropTagMatch_length rest r h
    simp only [List.length_cons]
    omega
  · simp only [List.length_cons]
    omega
  · simp only [List.length_cons]
    omega

/-- stripTags lifts the tag removal to strings. -/
def stripTags (s : String) : String := String.mk (stripTagsList s.data)

/-- CacheSlotValue is the JSON.parse view of the string standing in
the persisted slot: either JSON.parse throws (malformedJson), or it
yields a value whose ts and items members may each be absent
(undefined in the host language); present members are assumed well
typed at the expected types. -/
inductive CacheSlotValue where
  | malformedJson : CacheSlotValue
  | parsed (ts : Option Int) (items : Option (List NewsItem)) : CacheSlotValue
  deriving DecidableEq, Repr

/-- loadCache, translated from the source.  A missing slot or a
JSON.parse failure degrades to none via the try/catch.  The stale
test now - ts > CACHE_TTL_MS compares NaN when ts is absent, and a
NaN comparison is false, so a value without ts is never treated as
stale; the items member is then returned exactly as stored, with an
absent member behaving as a miss for the caller, like null. -/
def loadCache (now : Int) (slot : Option CacheSlotValue) : Option (List NewsItem) :=
  match slot with
  | none => none
  | some CacheSlotValue.malformedJson => none
  | some (CacheSlotValue.parsed ts items) =>
    let stale := match ts with
      | some t => decide (now - t > CACHE_TTL_MS)
      | none => false
    if stale then none else items

/-- saveCache, translated from the source: the slot is overwritten
unconditionally with the serialization of a value holding ts = now
and the given items; the previous slot content is ignored. -/
def saveCache (now : Int) (items : List NewsItem)
    (_slot : Option CacheSlotValue) : Option CacheSlotValue :=
  some (CacheSlotValue.parsed (some now) (some items))

/-- RawItem is one item element of the parsed feed document; each
field is the optional textContent of the corresponding child element
(an absent element and a null textContent are both none). -/
structure RawItem where
  title : Option String
  link : Option String
  pubDate : Option String
  source : Option String
  description : Option String
  deriving DecidableEq, Repr

/-- parseRawItem translates the body of the map callback of
fetchGoogleNewsRSS at index i.  The date parser of the host (new Date
applied to an arbitrary string) is passed in as pd, yielding the
epoch-millisecond instant, or none for an invalid date.  When pubDate
is nonempty but unparseable, toISOString on the invalid date throws a
RangeError, modelled as Except.error; when the guard on empty title,
link or publishedAtISO fires, the callback returns null, modelled as
Option.none. -/
def parseRawItem (pd : String → Option Int) (i : Nat) (it : RawItem) :
    Except Unit (Option NewsItem) :=
  let title := it.title.getD ""
  let link := it.link.getD ""
  let pubDate := it.pubDate.getD ""
  let src := if it.source.getD "" = "" then "Google News" else it.source.getD ""
  let desc := stripTags (it.description.getD "")
  if pubDate = "" then Except.ok none
  else
    match pd pubDate with
    | none => Except.error ()
    | some ts =>
      if title = "" || link = "" then Except.ok none
      else Except.ok (some
        { id := toString ts ++ "_" ++ toString i
          title := title
          url := link
          source := src
          publishedAt := ts
          snippet := clamp desc })

/-- mapPhase is the map pass of fetchGoogleNewsRSS: items are
processed left to right with their ordinal position, and the first
thrown exception aborts the whole fetch. -/
def mapPhase (pd : String → Option Int) : Nat → List RawItem → Except Unit (List (Option NewsItem))
  | _, [] => Except.ok []
  | i, it :: rest =>
    match parseRawItem pd i it with
    | Except.error e => Except.error e
    | Except.ok r =>
      match mapPhase pd (i + 1) rest with
      | Except.error e => Except.error e
      | Except.ok rs => Except.ok (r :: rs)

/-- parseFeedItems is the map phase followed by the filter on
truthiness, which drops exactly the null entries. -/
def parseFeedItems (pd : String → Option Int) (items : List RawItem) :
    Except Unit (List NewsItem) :=
  (mapPhase pd 0 items).map (fun l => l.filterMap id)

/-- FetchOutcome abstracts the transport part of the fetch: either
the relay request fails (a non-success status or a thrown transport
error), or it yields a body whose parsed feed document holds the
given item list. -/
inductive FetchOutcome where
  | transportFail : FetchOutcome
  | okBody (items : List RawItem) : FetchOutcome

/-- fetchGoogleNewsRSS, translated from the source: a transport
failure throws, otherwise the feed items are parsed. -/
def fetchGoogleNewsRSS (pd : String → Option Int) :
    FetchOutcome → Except Unit (List NewsItem)
  | FetchOutcome.transportFail => Except.error ()
  | FetchOutcome.okBody items => parseFeedItems pd items

/-- OrchState carries the component state owned by the orchestrator
together with the persisted cache slot. -/
structure OrchState where
  items : List NewsItem
  loading : Bool
  error : Option String
  slot : Option CacheSlotValue
  deriving DecidableEq, Repr

/-- errorMessage is the fixed user-facing failure message of the source. -/
def errorMessage : String := "Unable to load news – please try again later"

/-- fetchStep is the part of load after the cache branch: fetch,
relevance-filter, cap at the first 100, adopt and persist on success;
on any thrown error, set the fixed message; the finally clause clears
loading on both paths. -/
def fetchStep (pd : String → Option Int) (fo : FetchOutcome) (now : Int)
    (s : OrchState) : OrchState :=
  match fetchGoogleNewsRSS pd fo with
  | Except.ok raw =>
    let relevant := (raw.filter isRelevant).take 100
    { s with items := relevant, slot := saveCache now relevant s.slot, loading := false }
  | Except.error _ => { s with error := some errorMessage, loading := false }

/-- load, translated from the source: loading is set and error
cleared on entry; when force is false a cache hit (any non-null
return, an empty list included) is adopted and the function returns
early; otherwise the fetch path runs. -/
def load (pd : String → Option Int) (force : Bool) (fo : FetchOutcome)
    (now : Int) (s : OrchState) : OrchState :=
  let s1 : OrchState := { s with loading := true, error := none }
  if force = false then
    match loadCache now s1.slot with
    | some cached => { s1 with items := cached, loading := false }
    | none => fetchStep pd fo now s1
  else fetchStep pd fo now s1

/-- CalDate is a calendar date as entered in the range inputs of the
view, in the format YYYY-MM-DD. -/
structure CalDate where
  year : Int
  month : Nat
  day : Nat
  deriving DecidableEq, Repr

/-- isLeap in the proleptic Gregorian calendar used by the host date
object. -/
def isLeap (y : Int) : Bool :=
  (decide (y % 4 = 0) && decide (y % 100 ≠ 0)) || decide (y % 400 = 0)

/-- daysInMonth bounds the day member of a valid calendar date. -/
def daysInMonth (y : Int) (m : Nat) : Nat :=
  if m = 2 then (if isLeap y then 29 else 28)
  else if m = 4 || m = 6 || m = 9 || m = 11 then 30
  else 31

/-- Valid calendar dates: month and day in range. -/
def CalDate.Valid (d : CalDate) : Prop :=
  1 ≤ d.month ∧ d.month ≤ 12 ∧ 1 ≤ d.day ∧ d.day ≤ daysInMonth d.year d.month

instance (d : CalDate) : Decidable d.Valid := by
  unfold CalDate.Valid; infer_instance

/-- daysFromCivil maps a proleptic Gregorian calendar date to the
count of days since 1970-01-01, by the standard era and year-of-era
decomposition; the divisions are C-style truncating divisions on the
same operands as the reference algorithm (all nonnegative except in
the era computation, where truncation on the shifted operand yields
the floor of the unshifted quotient). -/
def daysFromCivil (y : Int) (m d : Nat) : Int :=
  let yAdj : Int := y - (if m ≤ 2 then 1 else 0)
  let era : Int := (if 0 ≤ yAdj then yAdj else yAdj - 399).tdiv 400
  let yoe : Int := yAdj - era * 400
  let doy : Int := (153 * (if 2 < m then (m : Int) - 3 else (m : Int) + 9) + 2).tdiv 5 + (d : Int) - 1
  let doe : Int := yoe * 365 + yoe.tdiv 4 - yoe.tdiv 100 + doy
  era * 146097 + doe - 719468

/-- utcMidnightMs is the instant of 00:00:00Z on the given calendar
date, as produced by parsing the date string with T00:00:00Z
appended. -/
def utcMidnightMs (d : CalDate) : Int := 86400000 * daysFromCivil d.year d.month d.day

/-- utcEndSecondMs is the instant of 23:59:59Z on the given calendar
date (the last 999 milliseconds of the day lie beyond it), as
produced by parsing the date string with T23:59:59Z appended. -/
def utcEndSecondMs (d : CalDate) : Int := utcMidnightMs d + 86399000

/-- newsLe is the keep-left relation induced by the comparator of the
source sort, which returns 1 when the ISO string of a precedes that
of b and -1 otherwise: a may stay left of b exactly when the
comparator is not positive, that is when the instant of b is at most
the instant of a.  The sort itself is required stable by the host
language, so it is modelled by a stable merge sort on this relation. -/
def newsLe (a b : NewsItem) : Bool := decide (b.publishedAt ≤ a.publishedAt)

/-- datePred is the range test of the derived view: the instant of
the record between the midnight instant of the start date and the
last whole second of the end date, both inclusive. -/
def datePred (f t : CalDate) (n : NewsItem) : Bool :=
  decide (utcMidnightMs f ≤ n.publishedAt) && decide (n.publishedAt ≤ utcEndSecondMs t)

/-- filtered is the derived view of the source: the range filter over
the in-memory items, then the comparator sort, descending by
instant. -/
def filtered (items : List NewsItem) (f t : CalDate) : List NewsItem :=
  (items.filter (datePred f t)).mergeSort newsLe

/-- specKeepItem follows the specification wording for the parser: an
item with a missing title, a missing link, or a missing or
unparseable publish date is dropped; any other item yields the fully
built record with the same fields as the source construction. -/
def specKeepItem (pd : String → Option Int) (i : Nat) (it : RawItem) : Option NewsItem :=
  let title := it.title.getD ""
  let link := it.link.getD ""
  let pubDate := it.pubDate.getD ""
  if title = "" ∨ link = "" ∨ pubDate = "" then none
  else
    match pd pubDate with
    | none => none
    | some ts => some
        { id := toString ts ++ "_" ++ toString i
          title := title
          url := link
          source := if it.source.getD "" = "" then "Google News" else it.source.getD ""
          publishedAt := ts
          snippet := clamp (stripTags (it.description.getD "")) }

/-- specParsedFeed is the specification view of the parse result:
invalid items are dropped entirely and the remaining records keep the
relative order of the source feed. -/
def specParsedFeed (pd : String → Option Int) : Nat → List RawItem → List NewsItem
  | _, [] => []
  | i, it :: rest =>
    match specKeepItem pd i it with
    | some r => r :: specParsedFeed pd (i + 1) rest
    | none => specParsedFeed pd (i + 1) rest

/-- pdGood is a concrete date parser for closed instances: it accepts
exactly the string good. -/
def pdGood : String → Option Int := fun s => if s = "good" then some 42 else none

/-- rawGood is a concrete feed item whose date pdGood accepts. -/
def rawGood : RawItem := ⟨some "t", some "l", some "good", none, none⟩

/-- rawBad is a concrete feed item whose publish date is present but
not parseable by pdGood. -/
def rawBad : RawItem := ⟨some "t", some "l", some "bad", none, none⟩

/-- sampleItem is a concrete record for closed instances. -/
def sampleItem : NewsItem :=
  { id := "0", title := "t", url := "u", source := "s", publishedAt := 0, snippet := "" }

/-- tieA and tieB are two distinct records sharing one publish
instant, 2024-01-01T00:00:00Z. -/
def tieA : NewsItem :=
  { id := "A", title := "a", url := "u", source := "s",
    publishedAt := 1704067200000, snippet := "" }

/-- tieB shares the instant of tieA but is a different record. -/
def tieB : NewsItem :=
  { id := "B", title := "b", url := "u", source := "s",
    publishedAt := 1704067200000, snippet := "" }

/-- dJan1 is the calendar date 2024-01-01. -/
def dJan1 : CalDate := ⟨2024, 1, 1⟩

/-- dJan2 is the calendar date 2024-01-02. -/
def dJan2 : CalDate := ⟨2024, 1, 2⟩

/-- pdZero is the date parser accepting every string at instant 0. -/
def pdZero : String → Option Int := fun _ => some 0

/-- rawItemsW is a feed of 150 identical relevant items. -/
def rawItemsW : List RawItem :=
  List.replicate 150 ⟨some "india power", some "l", some "d", none, none⟩

/-- sStale is an orchestrator state whose cache slot was written at
instant 0. -/
def sStale : OrchState :=
  ⟨[], false, none, some (CacheSlotValue.parsed (some 0) (some []))⟩

/-- C2: isRelevant holds exactly when the lowercased concatenation of
title, snippet and source contains one of the two geography terms and
at least one domain keyword; the function is total, so it never
throws, for empty title or snippet included. -/
theorem c2_isRelevant_iff (item : NewsItem) :
    isRelevant item = true ↔
      (List.IsInfix "india".data
          (jsToLower (item.title ++ " " ++ item.snippet ++ " " ++ item.source)).data ∨
        List.IsInfix "indian".data
          (jsToLower (item.title ++ " " ++ item.snippet ++ " " ++ item.source)).data) ∧
      ∃ t ∈ POWER_TERMS, List.IsInfix t.data
          (jsToLower (item.title ++ " " ++ item.snippet ++ " " ++ item.source)).data := by
  simp [isRelevant, jsIncludes, List.any_eq_true, Bool.and_eq_true, Bool.or_eq_true,
    decide_eq_true_iff]

/-- C3: when the fetch path is reached (forced, or a cache miss) and
the fetcher fails, load ends with exactly the fixed user-facing
message, the records field keeps precisely its previous value, the
slot is untouched, and loading is false. -/
theorem c3_fetch_failure_state (pd : String → Option Int) (force : Bool)
    (fo : FetchOutcome) (now : Int) (s : OrchState)
    (hpath : force = true ∨ loadCache now s.slot = none)
    (hfail : fetchGoogleNewsRSS pd fo = Except.error ()) :
    load pd force fo now s = { s with loading := false, error := some errorMessage } := by
  cases force with
  | true => simp [load, fetchStep, hfail]
  | false =>
    rcases hpath with h | h
    · exact absurd h (by simp)
    · simp [load, fetchStep, h, hfail]

/-- Closed instance of c3_fetch_failure_state: a transport failure on
a forced load leaves the previous records and sets the message. -/
theorem c3_witness :
    ((true : Bool) = true ∨ loadCache 0 (some CacheSlotValue.malformedJson) = none) ∧
    fetchGoogleNewsRSS pdZero FetchOutcome.transportFail = Except.error () ∧
    load pdZero true FetchOutcome.transportFail 0
        ⟨[sampleItem], false, none, some CacheSlotValue.malformedJson⟩ =
      { items := [sampleItem], loading := false, error := some errorMessage,
        slot := some CacheSlotValue.malformedJson } := by
  refine ⟨Or.inl rfl, rfl, ?_⟩
  exact c3_fetch_failure_state pdZero true FetchOutcome.transportFail 0
    ⟨[sampleItem], false, none, some CacheSlotValue.malformedJson⟩ (Or.inl rfl) rfl

/-- C4: saving and then loading within the freshness window returns
exactly the saved records, whatever stood in the slot before. -/
theorem c4_save_load_roundtrip (now now2 : Int) (items : List NewsItem)
    (slot : Option CacheSlotValue) (h : now2 - now < CACHE_TTL_MS) :
    loadCache now2 (saveCache now items slot) = some items := by
  have hns : ¬ (now2 - now > CACHE_TTL_MS) := by omega
  simp [loadCache, saveCache, hns]

/-- Closed instance of c4_save_load_roundtrip. -/
theorem c4_witness :
    (0 : Int) - 0 < CACHE_TTL_MS ∧
    loadCache 0 (saveCache 0 [sampleItem] none) = some [sampleItem] := by
  exact ⟨by decide, c4_save_load_roundtrip 0 0 [sampleItem] none (by decide)⟩

/-- C5 counterexample: a slot whose stored value is JSON but lacks
the writtenAt member fails to parse as the expected structure, yet
loadCache returns its items member instead of absent, because the
staleness test on an absent timestamp compares NaN and is false. -/
theorem c5_counterexample :
    loadCache 0 (some (CacheSlotValue.parsed none (some [sampleItem]))) = some [sampleItem] ∧
    loadCache 0 (some (CacheSlotValue.parsed none (some [sampleItem]))) ≠ none := by
  exact ⟨rfl, by decide⟩

/-- C5 amended: loadCache never throws and returns absent when the
slot is missing, when the stored string fails to parse as JSON, or
when the parsed writtenAt is present and older than the freshness
window; in that stale case a load without force proceeds to a real
fetch.  A parsed value without writtenAt is not validated and its
items member is returned as stored. -/
theorem c5_loadCache_behavior (pd : String → Option Int) (fo : FetchOutcome)
    (now t : Int) (itemsOpt : Option (List NewsItem)) (s : OrchState)
    (hs : s.slot = some (CacheSlotValue.parsed (some t) itemsOpt))
    (hstale : now - t > CACHE_TTL_MS) :
    loadCache now none = none ∧
    loadCache now (some CacheSlotValue.malformedJson) = none ∧
    loadCache now s.slot = none ∧
    load pd false fo now s = fetchStep pd fo now { s with loading := true, error := none } := by
  have h3 : loadCache now s.slot = none := by
    rw [hs]; simp [loadCache, hstale]
  refine ⟨rfl, rfl, h3, ?_⟩
  simp [load, h3]

/-- Closed instance of c5_loadCache_behavior at a slot written at
instant 0 and read 61 minutes later. -/
theorem c5_witness :
    sStale.slot = some (CacheSlotValue.parsed (some 0) (some [])) ∧
    (3660000 : Int) - 0 > CACHE_TTL_MS ∧
    loadCache 3660000 sStale.slot = none ∧
    load pdZero false FetchOutcome.transportFail 3660000 sStale =
      fetchStep pdZero FetchOutcome.transportFail 3660000
        { sStale with loading := true, error := none } := by
  refine ⟨rfl, by decide, ?_, ?_⟩
  · exact (c5_loadCache_behavior pdZero FetchOutcome.transportFail 3660000 0 (some [])
      sStale rfl (by decide)).2.2.1
  · exact (c5_loadCache_behavior pdZero FetchOutcome.transportFail 3660000 0 (some [])
      sStale rfl (by decide)).2.2.2

/-- C9: a non-forced load with a fresh cache hit adopts exactly the
cached records, ends ready (not loading, no error), leaves the slot
unchanged, and the outcome does not depend on the fetcher at all:
the conclusion holds for every fetch outcome. -/
theorem c9_cache_hit_short_circuit (pd : String → Option Int) (fo : FetchOutcome)
    (now : Int) (s : OrchState) (cached : List NewsItem)
    (h : loadCache now s.slot = some cached) :
    load pd false fo now s = { s with items := cached, loading := false, error := none } := by
  simp [load, h]

/-- Closed instance of c9_cache_hit_short_circuit with an empty
cached list: the hit still short-circuits the fetcher. -/
theorem c9_witness :
    loadCache 0 sStale.slot = some [] ∧
    load pdZero false FetchOutcome.transportFail 0 sStale =
      { sStale with items := [], loading := false, error := none } := by
  exact ⟨rfl, c9_cache_hit_short_circuit pdZero FetchOutcome.transportFail 0 sStale [] rfl⟩

/-- C10: load clears the error member on entry, so any load that
completes without the catch branch (a cache hit, or a successful
fetch) ends with no error, whatever error the previous load left. -/
theorem c10_error_cleared (pd : String → Option Int) (force : Bool) (fo : FetchOutcome)
    (now : Int) (s : OrchState)
    (h : (∃ raw, fetchGoogleNewsRSS pd fo = Except.ok raw) ∨
         (force = false ∧ (loadCache now s.slot).isSome)) :
    (load pd force fo now s).error = none := by
  rcases h with ⟨raw, hr⟩ | ⟨hf, hc⟩
  · cases force with
    | true => simp [load, fetchStep, hr]
    | false =>
      rcases hcache : loadCache now s.slot with _ | c
      · simp [load, fetchStep, hcache, hr]
      · simp [load, hcache]
  · subst hf
    rcases Option.isSome_iff_exists.mp hc with ⟨c, hc2⟩
    simp [load, hc2]

/-- Closed instance of c10_error_cleared: a successful fetch clears
an error left by a previous failed load. -/
theorem c10_witness :
    ((∃ raw, fetchGoogleNewsRSS pdZero (FetchOutcome.okBody []) = Except.ok raw) ∨
      ((false : Bool) = false ∧ (loadCache 0 (none : Option CacheSlotValue)).isSome)) ∧
    (load pdZero false (FetchOutcome.okBody []) 0
        ⟨[], false, some errorMessage, none⟩).error = none := by
  refine ⟨Or.inl ⟨[], rfl⟩, ?_⟩
  exact c10_error_cleared pdZero false (FetchOutcome.okBody []) 0
    ⟨[], false, some errorMessage, none⟩ (Or.inl ⟨[], rfl⟩)

theorem parseRawItem_eq_spec (pd : String → Option Int) (i : Nat) (it : RawItem)
    (hit : it.pubDate.getD "" ≠ "" → (pd (it.pubDate.getD "")).isSome) :
    parseRawItem pd i it = Except.ok (specKeepItem pd i it) := by
  unfold parseRawItem specKeepItem
  by_cases hpd : it.pubDate.getD "" = ""
  · simp [hpd]
  · rcases hps : pd (it.pubDate.getD "") with _ | ts
    · exact absurd (hit hpd) (by simp [hps])
    · by_cases ht : it.title.getD "" = ""
      · simp [hpd, hps, ht]
      · by_cases hl : it.link.getD "" = ""
        · simp [hpd, hps, ht, hl]
        · simp [hpd, hps, ht, hl]

theorem mapPhase_filterMap_eq_spec (pd : String → Option Int) :
    ∀ items : List RawItem,
      (∀ it ∈ items, it.pubDate.getD "" ≠ "" → (pd (it.pubDate.getD "")).isSome) →
      ∀ n, ∃ l, mapPhase pd n items = Except.ok l ∧
        l.filterMap id = specParsedFeed pd n items := by
  intro items
  induction items with
  | nil => intro _ n; exact ⟨[], rfl, rfl⟩
  | cons it rest ih =>
    intro h n
    have hhead : parseRawItem pd n it = Except.ok (specKeepItem pd n it) :=
      parseRawItem_eq_spec pd n it (h it (List.mem_cons_self it rest))
    obtain ⟨l, hl, hfm⟩ := ih (fun x hx => h x (List.mem_cons_of_mem it hx)) (n + 1)
    refine ⟨specKeepItem pd n it :: l, ?_, ?_⟩
    · simp [mapPhase, hhead, hl]
    · rcases hk : specKeepItem pd n it with _ | r <;>
        simp [List.filterMap_cons, hk, hfm, specParsedFeed]

theorem specKeepItem_valid (pd : String → Option Int) (i : Nat) (it : RawItem)
    (x : NewsItem) (hk : specKeepItem pd i it = some x) :
    x.title ≠ "" ∧ x.url ≠ "" := by
  simp only [specKeepItem] at hk
  by_cases hcond : it.title.getD "" = "" ∨ it.link.getD "" = "" ∨ it.pubDate.getD "" = ""
  · rw [if_pos hcond] at hk
    exact absurd hk (by simp)
  · rw [if_neg hcond] at hk
    push_neg at hcond
    rcases hps : pd (it.pubDate.getD "") with _ | ts
    · rw [hps] at hk
      exact absurd hk (by simp)
    · rw [hps] at hk
      injection hk with hk2
      subst hk2
      exact ⟨hcond.1, hcond.2.1⟩

theorem specParsedFeed_valid (pd : String → Option Int) :
    ∀ (items : List RawItem) (n : Nat) (r : NewsItem),
      r ∈ specParsedFeed pd n items → r.title ≠ "" ∧ r.url ≠ "" := by
  intro items
  induction items with
  | nil => intro n r hr; simp [specParsedFeed] at hr
  | cons it rest ih =>
    intro n r hr
    rw [specParsedFeed] at hr
    rcases hk : specKeepItem pd n it with _ | x
    · rw [hk] at hr
      exact ih (n + 1) r hr
    · rw [hk] at hr
      rcases List.mem_cons.mp hr with h | h
      · subst h
        exact specKeepItem_valid pd n it r hk
      · exact ih (n + 1) r h

/-- C1 counterexample: a feed whose single item has a title, a link
and a present but unparseable publish date makes the whole parse
throw instead of dropping the item, while the specification view of
the same feed drops the item and raises no error. -/
theorem c1_counterexample :
    parseFeedItems pdGood [rawBad] = Except.error () ∧
    pdGood (rawBad.pubDate.getD "") = none ∧
    specParsedFeed pdGood 0 [rawBad] = [] := by
  exact ⟨rfl, rfl, rfl⟩

/-- C1 amended: provided no item carries a present but unparseable
publish date, the parse succeeds and returns exactly the
specification view of the feed: items with a missing title, a
missing link or a missing publish date are dropped entirely, and the
surviving records are fully valid (non-empty title and url, a parsed
instant) in the relative order of the source feed. -/
theorem c1_parser_drops_invalid (pd : String → Option Int) (items : List RawItem)
    (h : ∀ it ∈ items, it.pubDate.getD "" ≠ "" → (pd (it.pubDate.getD "")).isSome) :
    parseFeedItems pd items = Except.ok (specParsedFeed pd 0 items) ∧
    ∀ r ∈ specParsedFeed pd 0 items, r.title ≠ "" ∧ r.url ≠ "" := by
  obtain ⟨l, hl, hfm⟩ := mapPhase_filterMap_eq_spec pd items h 0
  constructor
  · unfold parseFeedItems
    rw [hl]
    simp [Except.map, hfm]
  · intro r hr
    exact specParsedFeed_valid pd items 0 r hr

/-- Closed instance of c1_parser_drops_invalid on a one-item feed
with a parseable date. -/
theorem c1_witness :
    (∀ it ∈ [rawGood], it.pubDate.getD "" ≠ "" → (pdGood (it.pubDate.getD "")).isSome) ∧
    parseFeedItems pdGood [rawGood] = Except.ok (specParsedFeed pdGood 0 [rawGood]) := by
  refine ⟨by decide, ?_⟩
  exact (c1_parser_drops_invalid pdGood [rawGood] (by decide)).1

/-- C6: for every record and every valid calendar date range read in
UTC, the derived view retains the record exactly when its instant
lies in the closed interval from the midnight instant of the start
date to the last whole second of the end date; in particular both
endpoints are included and any instant outside either bound is
excluded. -/
theorem c6_range_boundaries (items : List NewsItem) (r : NewsItem) (f t : CalDate)
    (hf : f.Valid) (ht : t.Valid) :
    r ∈ filtered items f t ↔
      r ∈ items ∧ utcMidnightMs f ≤ r.publishedAt ∧ r.publishedAt ≤ utcEndSecondMs t := by
  unfold filtered
  rw [List.mem_mergeSort, List.mem_filter]
  simp [datePred, Bool.and_eq_true, decide_eq_true_iff, and_assoc]

/-- Closed instance of c6_range_boundaries: a record sitting exactly
on the start-of-range instant is retained. -/
theorem c6_witness :
    CalDate.Valid dJan1 ∧ CalDate.Valid dJan2 ∧
    { sampleItem with publishedAt := utcMidnightMs dJan1 } ∈
      filtered [{ sampleItem with publishedAt := utcMidnightMs dJan1 }] dJan1 dJan2 := by
  refine ⟨by decide, by decide, ?_⟩
  exact (c6_range_boundaries _ _ dJan1 dJan2 (by decide) (by decide)).mpr
    ⟨List.mem_singleton_self _, le_refl _, by decide⟩

/-- C7: on a successful fetch, the records a forced load adopts and
the list it persists to the cache slot are exactly the first 100
relevance-passing records in parse order, whose length is the
minimum of the number of relevance-passing records and 100. -/
theorem c7_cap_adopt_persist (pd : String → Option Int) (fo : FetchOutcome) (now : Int)
    (s : OrchState) (raw : List NewsItem)
    (h : fetchGoogleNewsRSS pd fo = Except.ok raw) :
    (load pd true fo now s).items = (raw.filter isRelevant).take 100 ∧
    (load pd true fo now s).slot =
      some (CacheSlotValue.parsed (some now) (some ((raw.filter isRelevant).take 100))) ∧
    ((raw.filter isRelevant).take 100).length = min (raw.filter isRelevant).length 100 := by
  refine ⟨?_, ?_, ?_⟩
  · simp [load, fetchStep, h]
  · simp [load, fetchStep, h, saveCache]
  · rw [List.length_take]
    exact Nat.min_comm _ _

set_option maxRecDepth 40000 in
/-- Closed instance of c7_cap_adopt_persist on a feed parsing to 150
relevant records: exactly the first 100 are adopted. -/
theorem c7_witness :
    fetchGoogleNewsRSS pdZero (FetchOutcome.okBody rawItemsW) =
      Except.ok (specParsedFeed pdZero 0 rawItemsW) ∧
    (load pdZero true (FetchOutcome.okBody rawItemsW) 0 ⟨[], false, none, none⟩).items =
      ((specParsedFeed pdZero 0 rawItemsW).filter isRelevant).take 100 ∧
    ((specParsedFeed pdZero 0 rawItemsW).filter isRelevant).length = 150 ∧
    (load pdZero true (FetchOutcome.okBody rawItemsW) 0
        ⟨[], false, none, none⟩).items.length = 100 := by
  obtain ⟨l, hl, hfm⟩ := mapPhase_filterMap_eq_spec pdZero rawItemsW (by decide) 0
  have h : fetchGoogleNewsRSS pdZero (FetchOutcome.okBody rawItemsW) =
      Except.ok (specParsedFeed pdZero 0 rawItemsW) := by
    show parseFeedItems pdZero rawItemsW = _
    unfold parseFeedItems
    rw [hl]
    simp [Except.map, hfm]
  have hc := c7_cap_adopt_persist pdZero (FetchOutcome.okBody rawItemsW) 0
    ⟨[], false, none, none⟩ (specParsedFeed pdZero 0 rawItemsW) h
  have hfl : ((specParsedFeed pdZero 0 rawItemsW).filter isRelevant).length = 150 := by decide
  refine ⟨h, hc.1, hfl, ?_⟩
  rw [hc.1, List.length_take, hfl]
  decide

theorem newsLe_trans (a b c : NewsItem) (h1 : newsLe a b = true) (h2 : newsLe b c = true) :
    newsLe a c = true := by
  simp only [newsLe, decide_eq_true_iff] at h1 h2 ⊢
  omega

theorem newsLe_total (a b : NewsItem) : (newsLe a b || newsLe b a) = true := by
  simp only [newsLe, Bool.or_eq_true, decide_eq_true_iff]
  omega

/-- C8 counterexample: two distinct records sharing one publish
instant keep their pre-sort relative order in the derived view; the
claimed reversal of the order of tied records does not happen. -/
theorem c8_counterexample :
    filtered [tieA, tieB] dJan1 dJan2 = [tieA, tieB] ∧
    filtered [tieA, tieB] dJan1 dJan2 ≠ [tieB, tieA] ∧
    tieA.publishedAt = tieB.publishedAt ∧ tieA ≠ tieB := by
  have hfil : List.filter (datePred dJan1 dJan2) [tieA, tieB] = [tieA, tieB] := by decide
  have hpw : List.Pairwise (fun a b => newsLe a b = true) [tieA, tieB] := by decide
  have hsorted : List.mergeSort [tieA, tieB] newsLe = [tieA, tieB] :=
    List.mergeSort_of_sorted hpw
  refine ⟨?_, ?_, rfl, by decide⟩
  · unfold filtered
    rw [hfil, hsorted]
  · unfold filtered
    rw [hfil, hsorted]
    decide

/-- C8 amended: the derived view is sorted descending by instant and
is a pure function of its inputs, hence deterministic across runs;
records sharing one instant keep their pre-sort relative order (the
comparator never reports the tied pair as out of order, and the sort
is stable): restricted to any one instant, the view equals the
retained list in its original order. -/
theorem c8_sort_descending_stable (items : List NewsItem) (f t : CalDate) :
    List.Pairwise (fun a b : NewsItem => b.publishedAt ≤ a.publishedAt)
      (filtered items f t) ∧
    ∀ k : Int, (filtered items f t).filter (fun r => r.publishedAt == k) =
      (items.filter (datePred f t)).filter (fun r => r.publishedAt == k) := by
  constructor
  · have hp := List.sorted_mergeSort newsLe_trans newsLe_total
      (items.filter (datePred f t))
    have : filtered items f t = (items.filter (datePred f t)).mergeSort newsLe := rfl
    rw [this]
    exact hp.imp (fun h => by simpa [newsLe, decide_eq_true_iff] using h)
  · intro k
    have hview : filtered items f t = (items.filter (datePred f t)).mergeSort newsLe := rfl
    rw [hview]
    set L := items.filter (datePred f t) with hL
    set p : NewsItem → Bool := fun r => r.publishedAt == k with hpdef
    have hkey : ∀ x ∈ L.filter p, x.publishedAt = k := by
      intro x hx
      have hb := (List.mem_filter.mp hx).2
      simpa [hpdef] using hb
    have hpw : (L.filter p).Pairwise (fun a b => newsLe a b = true) := by
      apply List.pairwise_of_forall_mem_list
      intro a ha b hb
      have h1 := hkey a ha
      have h2 := hkey b hb
      simp [newsLe, h1, h2]
    have hsub : (L.filter p).Sublist (L.mergeSort newsLe) :=
      List.sublist_mergeSort newsLe_trans newsLe_total hpw (List.filter_sublist L)
    have hall : ∀ x ∈ L.filter p, p x = true := fun x hx => (List.mem_filter.mp hx).2
    have heq : (L.filter p).filter p = L.filter p := List.filter_eq_self.mpr hall
    have hsub2 : ((L.filter p).filter p).Sublist ((L.mergeSort newsLe).filter p) :=
      List.Sublist.filter p hsub
    rw [heq] at hsub2
    have hperm : (L.mergeSort newsLe).Perm L := List.mergeSort_perm L newsLe
    have hlen : ((L.mergeSort newsLe).filter p).length = (L.filter p).length :=
      (hperm.filter p).length_eq
    exact (hsub2.eq_of_length (by rw [hlen])).symm
